import Mathlib

/-!
Verification of the plane-sampling and pose-difference labeling engine of
`train.py` (plane-detection).  The per-sample pipeline of `get_train_pairs`
is embedded over exact rationals: pose matrices are `Fin 4 → Fin 4 → ℚ`,
vectors are `Fin 3 → ℚ`, quaternions `Fin 4 → ℚ`.  Routines that live in
the `utils.geometry` / `utils.plane` modules (absent from the sources,
described by the specification) are modelled from the spec and marked as
such; everything else is translated statement-by-statement from
`get_train_pairs` in `train.py`.
-/

set_option autoImplicit false

namespace PlaneDetect

abbrev Vec3 := Fin 3 → ℚ

abbrev Quat := Fin 4 → ℚ

abbrev Mat4 := Fin 4 → Fin 4 → ℚ

/-- Maximum of a list of rationals (`0` on the empty list; every use below is
on a non-empty list).  Auxiliary for the embedding of `np.argmax`. -/
def listMax : List ℚ → ℚ
  | [] => 0
  | [x] => x
  | x :: y :: ys => max x (listMax (y :: ys))

/-- Embedding of `np.argmax` on a list of rationals: the index of the first
occurrence of the maximum (numpy documents exactly this first-occurrence
tie-break).  Used by `train.py` lines 354 and 369. -/
def argmaxIdx : List ℚ → ℕ
  | [] => 0
  | [_] => 0
  | x :: y :: ys => if x < listMax (y :: ys) then argmaxIdx (y :: ys) + 1 else 0

/-! ### Classification labelers (train.py lines 353-375)

The source computes the labels for the whole batch with vectorized numpy
operations; all of them act row-by-row, so they are embedded per sample. -/

/-- The row of absolute first Euler angles over the six conventions:
`np.abs(euler[i, :, 0])` (train.py line 354), as a six-element list indexed
in the source's convention order. -/
def rotRow (e : Fin 6 → Fin 3 → ℚ) : List ℚ :=
  [|e 0 0|, |e 1 0|, |e 2 0|, |e 3 0|, |e 4 0|, |e 5 0|]

/-- `max_ind_rot = np.argmax(np.abs(euler[:, :, 0]), axis=1)` for one sample
(train.py line 354).  `rotRow` has six entries, so the `% 6` never truncates
(`maxIndRot_val` below). -/
def maxIndRot (e : Fin 6 → Fin 3 → ℚ) : Fin 6 :=
  ⟨argmaxIdx (rotRow e) % 6, Nat.mod_lt _ (by norm_num)⟩

/-- Convention-row to axis mapping of train.py lines 355-361:
rows 0,1 select axis x (0), rows 2,3 axis y (1), rows 4,5 axis z (2). -/
def rotAxisOf (j : ℕ) : ℕ :=
  if j = 0 ∨ j = 1 then 0 else if j = 2 ∨ j = 3 then 1 else 2

/-- `euler[i, max_ind_rot, 0]` (train.py line 362): the first Euler angle of
the selected convention row. -/
def maxEulerSel (e : Fin 6 → Fin 3 → ℚ) : ℚ := e (maxIndRot e) 0

/-- The hot index of the rotation one-hot label (train.py lines 363-365):
`axis * 2` when the selected angle is `> 0`, `axis * 2 + 1` otherwise. -/
def actionsIndRot (e : Fin 6 → Fin 3 → ℚ) : ℕ :=
  if maxEulerSel e > 0 then rotAxisOf (maxIndRot e).val * 2
  else rotAxisOf (maxIndRot e).val * 2 + 1

/-- `actions_rot[i]` (train.py line 366): one-hot row over the 6 slots. -/
def actionsRot (e : Fin 6 → Fin 3 → ℚ) : Fin 6 → ℚ :=
  fun s => if s.val = actionsIndRot e then 1 else 0

/-- The row of absolute translation components `np.abs(trans_diff[i])`
(train.py line 369). -/
def tranRow (v : Vec3) : List ℚ := [|v 0|, |v 1|, |v 2|]

/-- `max_ind_tran = np.argmax(np.abs(trans_diff), axis=1)` for one sample
(train.py line 369).  `tranRow` has three entries, so the `% 3` never
truncates (`maxIndTran_val` below). -/
def maxIndTran (v : Vec3) : Fin 3 :=
  ⟨argmaxIdx (tranRow v) % 3, Nat.mod_lt _ (by norm_num)⟩

/-- `max_trans_diff = trans_diff[i, max_ind_tran]` (train.py line 370). -/
def maxTransDiff (v : Vec3) : ℚ := v (maxIndTran v)

/-- The hot index of the translation one-hot label (train.py lines 371-374):
`axis * 2` when the selected component is `> 0`, `axis * 2 + 1` otherwise. -/
def actionsIndTran (v : Vec3) : ℕ :=
  if maxTransDiff v > 0 then (maxIndTran v).val * 2
  else (maxIndTran v).val * 2 + 1

/-- `actions_tran[i]` (train.py line 375): one-hot row over the 6 slots. -/
def actionsTran (v : Vec3) : Fin 6 → ℚ :=
  fun s => if s.val = actionsIndTran v then 1 else 0

/-! ### Rigid-transform algebra

`geometry.quaternion_matrix`, `geometry.inv_mat` and
`geometry.quaternion_from_matrix` belong to `utils/geometry.py`, which is
not among the given sources; they are modelled from the specification
(sections 4.1 and 4.5). -/

/-- A 4x4 matrix from its 16 entries in row-major order. -/
def mk4 (m00 m01 m02 m03 m10 m11 m12 m13 m20 m21 m22 m23 m30 m31 m32 m33 : ℚ) :
    Mat4 :=
  fun i j =>
    if i = 0 then (if j = 0 then m00 else if j = 1 then m01 else if j = 2 then m02 else m03)
    else if i = 1 then (if j = 0 then m10 else if j = 1 then m11 else if j = 2 then m12 else m13)
    else if i = 2 then (if j = 0 then m20 else if j = 1 then m21 else if j = 2 then m22 else m23)
    else (if j = 0 then m30 else if j = 1 then m31 else if j = 2 then m32 else m33)

/-- `np.matmul` on homogeneous 4x4 matrices (train.py lines 326 and 341). -/
def matMul (A B : Mat4) : Mat4 :=
  fun i j => ∑ k : Fin 4, A i k * B k j

/-- Modelled from the spec: `quaternion_matrix(q)` of `utils/geometry.py`
(spec section 4.1) builds the homogeneous rotation matrix of a possibly
unnormalized quaternion `(w, x, y, z)`, normalizing internally and
returning the identity when the norm is below a small epsilon (taken here
as exactly zero, the only rational below every positive tolerance).  The
normalized outer-product form `o a b = 2 q_a q_b / |q|^2` keeps every entry
rational. -/
def quaternion_matrix (q : Quat) : Mat4 :=
  let n := q 0 * q 0 + q 1 * q 1 + q 2 * q 2 + q 3 * q 3
  if n = 0 then mk4 1 0 0 0 0 1 0 0 0 0 1 0 0 0 0 1
  else
    let o : Fin 4 → Fin 4 → ℚ := fun a b => 2 * q a * q b / n
    mk4 (1 - o 2 2 - o 3 3) (o 1 2 - o 3 0) (o 1 3 + o 2 0) 0
        (o 1 2 + o 3 0) (1 - o 1 1 - o 3 3) (o 2 3 - o 1 0) 0
        (o 1 3 - o 2 0) (o 2 3 + o 1 0) (1 - o 1 1 - o 2 2) 0
        0 0 0 1

/-- `mat[:3, 3] = tran` (train.py lines 325 and 340): place a translation in
the last column of a homogeneous matrix. -/
def setTrans (M : Mat4) (t : Vec3) : Mat4 :=
  fun i j => if h : i.val < 3 ∧ j.val = 3 then t ⟨i.val, h.1⟩ else M i j

/-- The homogeneous pose matrix built by train.py lines 324-325 and 339-340:
rotation block from the quaternion, translation in the last column. -/
def poseMatrix (q : Quat) (t : Vec3) : Mat4 :=
  setTrans (quaternion_matrix q) t

/-- Modelled from the spec: `inv_mat(M)` of `utils/geometry.py` (spec
section 4.1) inverts a rigid transform analytically: transpose of the
rotation block, translation `-Rᵀ t`, last row `(0,0,0,1)`. -/
def inv_mat (M : Mat4) : Mat4 :=
  fun i j =>
    if i.val < 3 ∧ j.val < 3 then M j i
    else if i.val < 3 ∧ j.val = 3 then
      -(M 0 i * M 0 3 + M 1 i * M 1 3 + M 2 i * M 2 3)
    else if i.val = 3 ∧ j.val = 3 then 1 else 0

/-- Exact square root on the rationals: correct whenever the argument is the
square of a rational (every radicand reached in this development is).
Auxiliary for `quaternion_from_matrix`. -/
def ratSqrt (x : ℚ) : ℚ :=
  (Nat.sqrt x.num.natAbs : ℚ) / (Nat.sqrt x.den : ℚ)

/-- Modelled from the spec: `quaternion_from_matrix(M, isprecise=True)` of
`utils/geometry.py` (spec section 4.1) extracts the quaternion of a
homogeneous rotation matrix and canonicalizes its sign so that the scalar
component is non-negative.  The spec fixes the contract (extraction robust
on rotation matrices, canonical sign) but not the formula; the standard
trace-based extraction with its diagonal-pivot branch is used, with square
roots taken by the exact rational `ratSqrt`. -/
def quaternion_from_matrix (M : Mat4) : Quat :=
  let t := M 0 0 + M 1 1 + M 2 2 + M 3 3
  let q : Quat :=
    if t > M 3 3 then
      let s := (1 / 2) / ratSqrt (t * M 3 3)
      fun a =>
        if a = 0 then s * t
        else if a = 1 then s * (M 2 1 - M 1 2)
        else if a = 2 then s * (M 0 2 - M 2 0)
        else s * (M 1 0 - M 0 1)
    else
      let ijk : Fin 4 × Fin 4 × Fin 4 :=
        let p : Fin 4 × Fin 4 × Fin 4 :=
          if M 1 1 > M 0 0 then (1, 2, 0) else (0, 1, 2)
        if M 2 2 > M p.1 p.1 then (2, 0, 1) else p
      let i := ijk.1
      let j := ijk.2.1
      let k := ijk.2.2
      let t2 := M i i - (M j j + M k k) + M 3 3
      let s := (1 / 2) / ratSqrt (t2 * M 3 3)
      fun a =>
        if a = 0 then s * (M k j - M j k)
        else if a.val = i.val + 1 then s * t2
        else if a.val = j.val + 1 then s * (M i j + M j i)
        else s * (M k i + M i k)
  fun a => if q 0 < 0 then -(q a) else q a

/-- The six static-axis Euler conventions enumerated by train.py
lines 346-351, in source order. -/
inductive EulerConv
  | sxyz
  | sxzy
  | syxz
  | syzx
  | szxy
  | szyx

/-- The 6x3 table `euler[i]` of train.py lines 346-351: row `r` holds the
Euler angles of the pose difference under the `r`-th convention.
`geometry.euler_from_matrix` itself is missing from the sources and its
transcendental angles (atan2, asin) have no exact rational embedding, so
the table is parameterized by the extraction routine `efm`; every theorem
below holds for all `efm`. -/
def eulerTable (efm : Mat4 → EulerConv → Fin 3 → ℚ) (D : Mat4) :
    Fin 6 → Fin 3 → ℚ :=
  fun r =>
    if r = 0 then efm D .sxyz
    else if r = 1 then efm D .sxzy
    else if r = 2 then efm D .syxz
    else if r = 3 then efm D .syzx
    else if r = 4 then efm D .szxy
    else efm D .szyx

/-- `mat_diff = np.matmul(mat_inv, mat_gt)` (train.py lines 338-341). -/
def mat_diff_of (ms mg : Mat4) : Mat4 := matMul (inv_mat ms) mg

/-- The pose-difference regression targets of train.py lines 338-343:
the translation column (rows 0-2 of column 3) of
`D = inverse(M_s) @ M_g`, and the quaternion extracted from `D` in precise
mode. -/
def pose_difference (ms mg : Mat4) : Vec3 × Quat :=
  (fun a => mat_diff_of ms mg a.castSucc 3,
   quaternion_from_matrix (mat_diff_of ms mg))

/-! ### Pose sampler and the per-sample pipeline (train.py lines 254-377) -/

/-- One axis of the translation sampler of train.py line 310:
`u * (s * f) + s * (1 - f) / 2 - (s - 1) / 2` for a uniform draw
`u ∈ [0, 1)` (`np.random.rand`), volume extent `s` and fraction `f`. -/
def sampleTran (u s f : ℚ) : ℚ :=
  u * (s * f) + s * (1 - f) / 2 - (s - 1) / 2

/-- The fields of the `Config` object of train.py (lines 24-54) consumed by
`get_train_pairs`.  The source assigns plain constants and validates
nothing. -/
structure Config where
  box_size : ℕ × ℕ
  input_plane : ℕ
  batch_size : ℕ
  trans_frac : ℚ
  max_euler : Fin 3 → ℚ

/-- A configuration the spec calls malformed (section 7): even `box_size`,
`trans_frac` outside `(0,1)`, or a negative Euler bound. -/
def malformedConfig (cfg : Config) : Prop :=
  cfg.box_size.1 % 2 = 0 ∨ ¬(0 < cfg.trans_frac ∧ cfg.trans_frac < 1) ∨
    ∃ i : Fin 3, cfg.max_euler i < 0

/-- A concrete configuration that is malformed in all three ways. -/
def badConfig : Config where
  box_size := (226, 226)
  input_plane := 3
  batch_size := 1
  trans_frac := 3 / 2
  max_euler := fun _ => -1

/-- The shared input store read by `get_train_pairs` (train.py
lines 276-278): the source volumes, ground-truth translations and
ground-truth quaternions. -/
structure TrainData (Img : Type) where
  images : List Img
  trans_vecs : List Vec3
  quats : List Quat

/-- The randomness consumed for one sample: the image index of line 296, the
three uniform `[0,1)` draws of line 310, and the Euler angles drawn at
line 299. -/
structure SampleDraw where
  ind : ℕ
  u : Vec3
  eul : Vec3

/-- The five arrays returned by `get_train_pairs` (train.py line 377), in
source order. -/
structure TrainOutputs (SliceT : Type) where
  slices : List SliceT
  actions_tran : List (Fin 6 → ℚ)
  trans_diff : List Vec3
  actions_rot : List (Fin 6 → ℚ)
  rots_diff : List Quat

/-- The body of the `for i in xrange(batch_size)` loop of `get_train_pairs`
(train.py lines 301-351) for one sample.  The routines missing from the
sources are passed in: `qfe` is `geometry.quaternion_from_euler(·,·,·,
'rxyz')` (line 312), `efm` is `geometry.euler_from_matrix`, and `extract`
is the plane-mesh construction plus volume resampling of lines 316-333
(single- or three-plane depending on `input_plane`; only the pose matrix
and the image feed it).  Returns the slice, the translation difference,
the quaternion difference, and the 6x3 Euler table. -/
def samplePipeline {Img SliceT : Type} (qfe : Vec3 → Quat)
    (efm : Mat4 → EulerConv → Fin 3 → ℚ) (extract : Img → Mat4 → SliceT)
    (defaultImg : Img) (shapeOf : Img → Vec3) (cfg : Config)
    (data : TrainData Img) (d : SampleDraw) :
    SliceT × Vec3 × Quat × (Fin 6 → Fin 3 → ℚ) :=
  let image := data.images.getD d.ind defaultImg
  let img_siz := shapeOf image
  let tran_gt := data.trans_vecs.getD d.ind (fun _ => 0)
  let rot_gt := data.quats.getD d.ind (fun _ => 0)
  let tran : Vec3 := fun a => sampleTran (d.u a) (img_siz a) cfg.trans_frac
  let rot := qfe d.eul
  let mat := poseMatrix rot tran
  let slice := extract image mat
  let mat_gt := poseMatrix rot_gt tran_gt
  let pd := pose_difference mat mat_gt
  (slice, pd.1, pd.2, eulerTable efm (mat_diff_of mat mat_gt))

/-- `get_train_pairs` (train.py lines 254-377): per-sample pipeline over the
batch of draws, then the batchwise (rowwise) classification labels.  The
input store is threaded through and returned so that its (non-)mutation is
part of the statement: the source only ever reads `data.images`,
`data.trans_vecs` and `data.quats`. -/
def get_train_pairs {Img SliceT : Type} (qfe : Vec3 → Quat)
    (efm : Mat4 → EulerConv → Fin 3 → ℚ) (extract : Img → Mat4 → SliceT)
    (defaultImg : Img) (shapeOf : Img → Vec3) (cfg : Config)
    (data : TrainData Img) (draws : List SampleDraw) :
    TrainData Img × TrainOutputs SliceT :=
  let per := draws.map (samplePipeline qfe efm extract defaultImg shapeOf cfg data)
  (data,
   { slices := per.map (fun p => p.1)
     actions_tran := per.map (fun p => actionsTran p.2.1)
     trans_diff := per.map (fun p => p.2.1)
     actions_rot := per.map (fun p => actionsRot p.2.2.2)
     rots_diff := per.map (fun p => p.2.2.1) })

/-! ### Concrete scenario instances

Used by the concrete-scenario theorem and by witnesses and counterexamples:
explicit instantiations of the abstract collaborators and inputs. -/

/-- The identity quaternion `(1, 0, 0, 0)`. -/
def qId : Quat := fun k => if k = 0 then 1 else 0

/-- The translation `(5, 0, 0)` of the spec's concrete scenario. -/
def t5 : Vec3 := fun a => if a = 0 then 5 else 0

/-- A trivial `quaternion_from_euler` stand-in returning the zero quaternion
(which `quaternion_matrix` maps to the identity rotation). -/
def zeroQfe : Vec3 → Quat := fun _ _ => 0

/-- A trivial Euler-extraction stand-in: all angles zero. -/
def zeroEfm : Mat4 → EulerConv → Fin 3 → ℚ := fun _ _ _ => 0

/-- A trivial plane-extraction stand-in on unit images. -/
def unitExtract : Unit → Mat4 → Unit := fun _ _ => ()

/-- Every volume axis has extent 64 (the spec's concrete scenario shape). -/
def shape64 : Unit → Vec3 := fun _ _ => 64

/-- A one-image store: ground-truth translation `0`, ground-truth rotation
the identity quaternion. -/
def cexData : TrainData Unit := ⟨[()], [fun _ => 0], [qId]⟩

/-- One draw: image 0, uniform draws `1/2`, Euler draws `0`. -/
def cexDraw : SampleDraw := ⟨0, fun _ => 1 / 2, fun _ => 0⟩

/-- The well-formed configuration of train.py lines 24-54 (with the
irrational `45°` Euler bounds replaced by `0`; no claim depends on them). -/
def okConfig : Config := ⟨(225, 225), 3, 64, 3 / 5, fun _ => 0⟩

/-- The translation one-hot row produced for `cexDraw` under `okConfig`. -/
def w6tranRow : Fin 6 → ℚ :=
  actionsTran ((samplePipeline zeroQfe zeroEfm unitExtract () shape64 okConfig
    cexData cexDraw).2.1)

/-- The rotation one-hot row produced for `cexDraw` under `okConfig`. -/
def w6rotRow : Fin 6 → ℚ :=
  actionsRot ((samplePipeline zeroQfe zeroEfm unitExtract () shape64 okConfig
    cexData cexDraw).2.2.2)

/-- A Euler table with an exact tie: rows 1-5 all have first angle `5`, row 0
has `0`.  The tied maximum is first attained at row 1. -/
def tieE : Fin 6 → Fin 3 → ℚ := fun r _ => if r = 0 then 0 else 5

/-- A translation vector with an exact tie: components `(1, 2, 2)`; the tied
maximum `2` is first attained at axis 1. -/
def tieV : Vec3 := fun a => if a = 0 then 1 else 2

/-! ### Supporting lemmas -/

theorem argmaxIdx_lt_length (l : List ℚ) (hl : l ≠ []) : argmaxIdx l < l.length := by
  induction l with
  | nil => exact absurd rfl hl
  | cons x xs ih =>
    cases xs with
    | nil => simp [argmaxIdx]
    | cons y ys =>
      rw [argmaxIdx]
      split
      · have h := ih (List.cons_ne_nil y ys)
        simp only [List.length_cons] at h ⊢
        omega
      · simp

theorem getD_argmaxIdx (l : List ℚ) (hl : l ≠ []) :
    l.getD (argmaxIdx l) 0 = listMax l := by
  induction l with
  | nil => exact absurd rfl hl
  | cons x xs ih =>
    cases xs with
    | nil => simp [argmaxIdx, listMax]
    | cons y ys =>
      rw [argmaxIdx, listMax]
      split
      · next h =>
        rw [List.getD_cons_succ, max_eq_right (le_of_lt h)]
        exact ih (List.cons_ne_nil y ys)
      · next h =>
        simp [List.getD_cons_zero, max_eq_left (not_lt.mp h)]

theorem getD_le_listMax (l : List ℚ) (k : ℕ) (hk : k < l.length) :
    l.getD k 0 ≤ listMax l := by
  induction l generalizing k with
  | nil => simp at hk
  | cons x xs ih =>
    cases xs with
    | nil =>
      have hk0 : k = 0 := by simpa using Nat.lt_one_iff.mp (by simpa using hk)
      subst hk0
      simp [listMax]
    | cons y ys =>
      rw [listMax]
      cases k with
      | zero => simp [List.getD_cons_zero]
      | succ k =>
        have hk' : k < (y :: ys).length := by
          simpa [Nat.succ_lt_succ_iff] using hk
        calc (x :: y :: ys).getD (k + 1) 0 = (y :: ys).getD k 0 := by
              simp [List.getD_cons_succ]
          _ ≤ listMax (y :: ys) := ih k hk'
          _ ≤ max x (listMax (y :: ys)) := le_max_right _ _

theorem getD_lt_listMax_of_lt_argmaxIdx (l : List ℚ) (k : ℕ)
    (hk : k < argmaxIdx l) : l.getD k 0 < listMax l := by
  induction l generalizing k with
  | nil => simp [argmaxIdx] at hk
  | cons x xs ih =>
    cases xs with
    | nil => simp [argmaxIdx] at hk
    | cons y ys =>
      rw [argmaxIdx] at hk
      rw [listMax]
      split at hk
      · next h =>
        cases k with
        | zero =>
          simpa [List.getD_cons_zero, max_eq_right (le_of_lt h)] using h
        | succ k =>
          have hk' : k < argmaxIdx (y :: ys) := Nat.lt_of_succ_lt_succ hk
          calc (x :: y :: ys).getD (k + 1) 0 = (y :: ys).getD k 0 := by
                simp [List.getD_cons_succ]
            _ < listMax (y :: ys) := ih k hk'
            _ ≤ max x (listMax (y :: ys)) := le_max_right _ _
      · omega

theorem maxIndRot_val (e : Fin 6 → Fin 3 → ℚ) :
    (maxIndRot e).val = argmaxIdx (rotRow e) := by
  have h : argmaxIdx (rotRow e) < 6 := by
    simpa [rotRow] using argmaxIdx_lt_length (rotRow e) (by simp [rotRow])
  simpa [maxIndRot] using Nat.mod_eq_of_lt h

theorem maxIndTran_val (v : Vec3) :
    (maxIndTran v).val = argmaxIdx (tranRow v) := by
  have h : argmaxIdx (tranRow v) < 3 := by
    simpa [tranRow] using argmaxIdx_lt_length (tranRow v) (by simp [tranRow])
  simpa [maxIndTran] using Nat.mod_eq_of_lt h

theorem rotRow_getD (e : Fin 6 → Fin 3 → ℚ) (k : Fin 6) :
    (rotRow e).getD k.val 0 = |e k 0| := by
  fin_cases k <;> rfl

theorem tranRow_getD (v : Vec3) (a : Fin 3) :
    (tranRow v).getD a.val 0 = |v a| := by
  fin_cases a <;> rfl

theorem abs_le_maxIndRot (e : Fin 6 → Fin 3 → ℚ) (k : Fin 6) :
    |e k 0| ≤ |e (maxIndRot e) 0| := by
  have hsel : (rotRow e).getD (maxIndRot e).val 0 = listMax (rotRow e) := by
    rw [maxIndRot_val]
    exact getD_argmaxIdx (rotRow e) (by simp [rotRow])
  have hk : (rotRow e).getD k.val 0 ≤ listMax (rotRow e) :=
    getD_le_listMax (rotRow e) k.val (by simp [rotRow])
  rw [rotRow_getD] at hsel hk
  rw [hsel]
  exact hk

theorem abs_lt_maxIndRot (e : Fin 6 → Fin 3 → ℚ) (k : Fin 6)
    (hk : k < maxIndRot e) : |e k 0| < |e (maxIndRot e) 0| := by
  have hsel : (rotRow e).getD (maxIndRot e).val 0 = listMax (rotRow e) := by
    rw [maxIndRot_val]
    exact getD_argmaxIdx (rotRow e) (by simp [rotRow])
  have hklt : k.val < argmaxIdx (rotRow e) := by
    rw [← maxIndRot_val]
    exact hk
  have hk2 : (rotRow e).getD k.val 0 < listMax (rotRow e) :=
    getD_lt_listMax_of_lt_argmaxIdx (rotRow e) k.val hklt
  rw [rotRow_getD] at hsel hk2
  rw [hsel]
  exact hk2

theorem abs_le_maxIndTran (v : Vec3) (a : Fin 3) :
    |v a| ≤ |v (maxIndTran v)| := by
  have hsel : (tranRow v).getD (maxIndTran v).val 0 = listMax (tranRow v) := by
    rw [maxIndTran_val]
    exact getD_argmaxIdx (tranRow v) (by simp [tranRow])
  have ha : (tranRow v).getD a.val 0 ≤ listMax (tranRow v) :=
    getD_le_listMax (tranRow v) a.val (by simp [tranRow])
  rw [tranRow_getD] at hsel ha
  rw [hsel]
  exact ha

theorem abs_lt_maxIndTran (v : Vec3) (a : Fin 3)
    (ha : a < maxIndTran v) : |v a| < |v (maxIndTran v)| := by
  have hsel : (tranRow v).getD (maxIndTran v).val 0 = listMax (tranRow v) := by
    rw [maxIndTran_val]
    exact getD_argmaxIdx (tranRow v) (by simp [tranRow])
  have halt : a.val < argmaxIdx (tranRow v) := by
    rw [← maxIndTran_val]
    exact ha
  have ha2 : (tranRow v).getD a.val 0 < listMax (tranRow v) :=
    getD_lt_listMax_of_lt_argmaxIdx (tranRow v) a.val halt
  rw [tranRow_getD] at hsel ha2
  rw [hsel]
  exact ha2

theorem rotAxisOf_val_div_two (m : Fin 6) : rotAxisOf m.val = m.val / 2 := by
  fin_cases m <;> rfl

theorem rotAxisOf_le_two (j : ℕ) : rotAxisOf j ≤ 2 := by
  unfold rotAxisOf
  split_ifs <;> omega

theorem actionsIndRot_lt_six (e : Fin 6 → Fin 3 → ℚ) : actionsIndRot e < 6 := by
  have h := rotAxisOf_le_two (maxIndRot e).val
  unfold actionsIndRot
  split_ifs <;> omega

theorem actionsIndTran_lt_six (v : Vec3) : actionsIndTran v < 6 := by
  have h := (maxIndTran v).isLt
  unfold actionsIndTran
  split_ifs <;> omega

theorem oneHotSum (m : ℕ) (hm : m < 6) :
    (∑ s : Fin 6, if s.val = m then (1 : ℚ) else 0) = 1 := by
  rw [Fin.sum_univ_six]
  simp only [show ((3 : Fin 6) : ℕ) = 3 from rfl, show ((4 : Fin 6) : ℕ) = 4 from rfl,
    show ((5 : Fin 6) : ℕ) = 5 from rfl]
  interval_cases m <;> norm_num

theorem actionsTran_sum (v : Vec3) : (∑ s : Fin 6, actionsTran v s) = 1 := by
  simp only [actionsTran]
  exact oneHotSum _ (actionsIndTran_lt_six v)

theorem actionsTran_zero_or_one (v : Vec3) (s : Fin 6) :
    actionsTran v s = 0 ∨ actionsTran v s = 1 := by
  unfold actionsTran
  split_ifs <;> simp

theorem actionsRot_sum (e : Fin 6 → Fin 3 → ℚ) : (∑ s : Fin 6, actionsRot e s) = 1 := by
  simp only [actionsRot]
  exact oneHotSum _ (actionsIndRot_lt_six e)

theorem actionsRot_zero_or_one (e : Fin 6 → Fin 3 → ℚ) (s : Fin 6) :
    actionsRot e s = 0 ∨ actionsRot e s = 1 := by
  unfold actionsRot
  split_ifs <;> simp

theorem ratSqrt_four : ratSqrt 4 = 2 := by
  norm_num [ratSqrt]

theorem mat_diff_shift_scenario :
    mat_diff_of (poseMatrix qId t5) (poseMatrix qId (fun _ => 0))
      = mk4 1 0 0 (-5) 0 1 0 0 0 0 1 0 0 0 0 1 := by
  funext i j
  fin_cases i <;> fin_cases j <;>
    simp +decide [mat_diff_of, matMul, inv_mat, poseMatrix, setTrans,
      quaternion_matrix, mk4, qId, t5, Fin.sum_univ_four]

theorem quaternion_from_matrix_shift_scenario :
    quaternion_from_matrix (mk4 1 0 0 (-5) 0 1 0 0 0 0 1 0 0 0 0 1) = qId := by
  funext a
  fin_cases a <;>
    simp +decide [quaternion_from_matrix, mk4, qId, ratSqrt_four] <;>
      norm_num [ratSqrt_four, Fin.ext_iff]
  all_goals decide

theorem actionsIndTran_minus5 :
    actionsIndTran (fun a => if a = 0 then (-5 : ℚ) else 0) = 1 := by
  simp +decide [actionsIndTran, maxTransDiff, maxIndTran, tranRow, argmaxIdx, listMax]

theorem maxIndRot_tieE : (maxIndRot tieE).val = 1 := by
  simp +decide [maxIndRot, rotRow, tieE, argmaxIdx, listMax]

theorem maxIndTran_tieV : (maxIndTran tieV).val = 1 := by
  simp +decide [maxIndTran, tranRow, tieV, argmaxIdx, listMax]

/-! ### Claim theorems -/

/-- Claim C1: for every pose-difference matrix `D` and every Euler-extraction
routine, the labeler forms the 6x3 table of Euler angles of `D` under the six
static-axis conventions, selects a row `j` whose first angle has maximum
absolute value among the 6 rows, maps rows 0,1 to axis x, 2,3 to axis y,
4,5 to axis z (axis = `j / 2`), and emits the one-hot length-6 vector hot at
`2 * axis` when the selected angle is positive and `2 * axis + 1` when it is
not. -/
theorem rotation_classification_spec (efm : Mat4 → EulerConv → Fin 3 → ℚ)
    (D : Mat4) :
    ∃ j : Fin 6,
      (∀ k : Fin 6, |eulerTable efm D k 0| ≤ |eulerTable efm D j 0|) ∧
      actionsRot (eulerTable efm D) = fun s =>
        if s.val = (if 0 < eulerTable efm D j 0 then 2 * (j.val / 2)
          else 2 * (j.val / 2) + 1) then 1 else 0 := by
  refine ⟨maxIndRot (eulerTable efm D), fun k => abs_le_maxIndRot _ k, ?_⟩
  funext s
  have hax := rotAxisOf_val_div_two (maxIndRot (eulerTable efm D))
  have hind : actionsIndRot (eulerTable efm D)
      = (if 0 < eulerTable efm D (maxIndRot (eulerTable efm D)) 0
          then 2 * ((maxIndRot (eulerTable efm D)).val / 2)
          else 2 * ((maxIndRot (eulerTable efm D)).val / 2) + 1) := by
    unfold actionsIndRot maxEulerSel
    rw [hax]
    split_ifs <;> ring
  simp only [actionsRot, hind]

/-- Claim C2: for every sampled pose matrix and ground-truth pose matrix
(each built by placing the quaternion's rotation block and the translation in
the last column), the labeler computes `D = inverse(M_s) @ M_g`; the
translation regression target is rows 0-2 of `D`'s column 3 and the rotation
regression target is the quaternion extracted from `D` in precise mode. -/
theorem pose_difference_targets {Img SliceT : Type} (qfe : Vec3 → Quat)
    (efm : Mat4 → EulerConv → Fin 3 → ℚ) (extract : Img → Mat4 → SliceT)
    (defaultImg : Img) (shapeOf : Img → Vec3) (cfg : Config)
    (data : TrainData Img) (d : SampleDraw) :
    (samplePipeline qfe efm extract defaultImg shapeOf cfg data d).2.1
        = (fun a => matMul
            (inv_mat (setTrans (quaternion_matrix (qfe d.eul)) (fun a =>
              sampleTran (d.u a) (shapeOf (data.images.getD d.ind defaultImg) a)
                cfg.trans_frac)))
            (setTrans (quaternion_matrix (data.quats.getD d.ind (fun _ => 0)))
              (data.trans_vecs.getD d.ind (fun _ => 0)))
            a.castSucc 3) ∧
    (samplePipeline qfe efm extract defaultImg shapeOf cfg data d).2.2.1
        = quaternion_from_matrix (matMul
            (inv_mat (setTrans (quaternion_matrix (qfe d.eul)) (fun a =>
              sampleTran (d.u a) (shapeOf (data.images.getD d.ind defaultImg) a)
                cfg.trans_frac)))
            (setTrans (quaternion_matrix (data.quats.getD d.ind (fun _ => 0)))
              (data.trans_vecs.getD d.ind (fun _ => 0)))) :=
  ⟨rfl, rfl⟩

/-- Claim C3: for every translation regression target `v`, the labeler
selects an axis `a` whose component has maximum absolute value among the 3,
and emits the one-hot length-6 vector hot at `2 * a` when `v a` is positive
and `2 * a + 1` when it is not. -/
theorem translation_classification_spec (v : Vec3) :
    ∃ a : Fin 3,
      (∀ b : Fin 3, |v b| ≤ |v a|) ∧
      actionsTran v = fun s =>
        if s.val = (if 0 < v a then 2 * a.val else 2 * a.val + 1) then 1 else 0 := by
  refine ⟨maxIndTran v, fun b => abs_le_maxIndTran v b, ?_⟩
  funext s
  have hind : actionsIndTran v
      = (if 0 < v (maxIndTran v) then 2 * (maxIndTran v).val
          else 2 * (maxIndTran v).val + 1) := by
    unfold actionsIndTran maxTransDiff
    split_ifs <;> ring
  simp only [actionsTran, hind]

/-- Claim C4 is refuted at this input: the draw `u = 99/100` lies in `[0,1)`,
yet for volume extent 64 and `trans_frac = 3/5` the sampled translation
exceeds `19.2 = 96/5`, so it is neither drawn from the zero-centered interval
`U(-19.2, 19.2)` nor contained in `[-19.2, 19.2]`. -/
theorem translation_sampling_cex :
    (0 : ℚ) ≤ 99 / 100 ∧ (99 / 100 : ℚ) < 1 ∧
      96 / 5 < sampleTran (99 / 100) 64 (3 / 5) := by
  norm_num [sampleTran]

/-- Claim C4 (amended): each axis's sampled translation equals
`u * shape * f + (1 - shape * f) / 2`, i.e. it is drawn uniformly from the
interval of width `shape * f` centered at `+1/2` (half a voxel above the
center of the volume's center-origin frame), not from the zero-centered
interval; for shape `(64,64,64)` and `trans_frac = 3/5` every component lies
in `[-18.7, 19.7)`. -/
theorem translation_sampling_offset_interval (u s f : ℚ) (h0 : 0 ≤ u)
    (h1 : u < 1) :
    sampleTran u s f = u * (s * f) + (1 - s * f) / 2 ∧
    (0 < s * f →
      (1 - s * f) / 2 ≤ sampleTran u s f ∧ sampleTran u s f < (1 + s * f) / 2) ∧
    (s = 64 → f = 3 / 5 →
      -(187 / 10) ≤ sampleTran u s f ∧ sampleTran u s f < 197 / 10) := by
  refine ⟨by unfold sampleTran; ring, ?_, ?_⟩
  · intro hsf
    unfold sampleTran
    constructor
    · nlinarith
    · nlinarith
  · rintro rfl rfl
    unfold sampleTran
    constructor <;> nlinarith

theorem translation_sampling_offset_interval_witness :
    sampleTran (1 / 2) 64 (3 / 5)
        = (1 / 2) * (64 * (3 / 5)) + (1 - 64 * (3 / 5)) / 2 ∧
    -(187 / 10) ≤ sampleTran (1 / 2) 64 (3 / 5) ∧
    sampleTran (1 / 2) 64 (3 / 5) < 197 / 10 :=
  ⟨(translation_sampling_offset_interval (1 / 2) 64 (3 / 5) (by norm_num)
      (by norm_num)).1,
   ((translation_sampling_offset_interval (1 / 2) 64 (3 / 5) (by norm_num)
      (by norm_num)).2.2 rfl rfl).1,
   ((translation_sampling_offset_interval (1 / 2) 64 (3 / 5) (by norm_num)
      (by norm_num)).2.2 rfl rfl).2⟩

/-- Claim C5: with the ground-truth pose the identity at the origin and the
sampled pose the identity translated by `(5,0,0)`, the labeler produces
`translation_diff = (-5,0,0)`, `action_translation` hot at slot 1 (the `-x`
slot), and `rotation_diff` the identity quaternion `(1,0,0,0)`. -/
theorem concrete_shift_scenario :
    (pose_difference (poseMatrix qId t5) (poseMatrix qId (fun _ => 0))).1
        = (fun a => if a = 0 then -5 else 0) ∧
    actionsTran (pose_difference (poseMatrix qId t5) (poseMatrix qId (fun _ => 0))).1
        = (fun s => if s.val = 1 then 1 else 0) ∧
    (pose_difference (poseMatrix qId t5) (poseMatrix qId (fun _ => 0))).2 = qId := by
  have h1 : (pose_difference (poseMatrix qId t5) (poseMatrix qId (fun _ => 0))).1
      = (fun a => if a = 0 then -5 else 0) := by
    funext a
    show mat_diff_of (poseMatrix qId t5) (poseMatrix qId (fun _ => 0)) a.castSucc 3
        = if a = 0 then -5 else 0
    rw [mat_diff_shift_scenario]
    fin_cases a <;> simp +decide [mk4]
  refine ⟨h1, ?_, ?_⟩
  · rw [h1]
    funext s
    simp only [actionsTran, actionsIndTran_minus5]
  · show quaternion_from_matrix
        (mat_diff_of (poseMatrix qId t5) (poseMatrix qId (fun _ => 0))) = qId
    rw [mat_diff_shift_scenario]
    exact quaternion_from_matrix_shift_scenario

/-- Claim C6: for every batch and every sample index, the returned
`action_translation` row and `action_rotation` row each sum to exactly 1 and
every entry is 0 or 1 (hence none is negative). -/
theorem onehot_rows_valid {Img SliceT : Type} (qfe : Vec3 → Quat)
    (efm : Mat4 → EulerConv → Fin 3 → ℚ) (extract : Img → Mat4 → SliceT)
    (defaultImg : Img) (shapeOf : Img → Vec3) (cfg : Config)
    (data : TrainData Img) (draws : List SampleDraw) :
    (∀ row ∈ (get_train_pairs qfe efm extract defaultImg shapeOf cfg data
        draws).2.actions_tran,
      (∑ s : Fin 6, row s) = 1 ∧ ∀ s : Fin 6, row s = 0 ∨ row s = 1) ∧
    (∀ row ∈ (get_train_pairs qfe efm extract defaultImg shapeOf cfg data
        draws).2.actions_rot,
      (∑ s : Fin 6, row s) = 1 ∧ ∀ s : Fin 6, row s = 0 ∨ row s = 1) := by
  constructor
  · intro row hrow
    simp only [get_train_pairs, List.mem_map] at hrow
    obtain ⟨p, -, rfl⟩ := hrow
    exact ⟨actionsTran_sum _, fun s => actionsTran_zero_or_one _ s⟩
  · intro row hrow
    simp only [get_train_pairs, List.mem_map] at hrow
    obtain ⟨p, -, rfl⟩ := hrow
    exact ⟨actionsRot_sum _, fun s => actionsRot_zero_or_one _ s⟩

theorem onehot_rows_valid_witness :
    ((∑ s : Fin 6, w6tranRow s) = 1 ∧ ∀ s : Fin 6, w6tranRow s = 0 ∨ w6tranRow s = 1) ∧
    ((∑ s : Fin 6, w6rotRow s) = 1 ∧ ∀ s : Fin 6, w6rotRow s = 0 ∨ w6rotRow s = 1) :=
  ⟨(onehot_rows_valid zeroQfe zeroEfm unitExtract () shape64 okConfig cexData
      [cexDraw]).1 w6tranRow (List.mem_singleton.mpr rfl),
   (onehot_rows_valid zeroQfe zeroEfm unitExtract () shape64 okConfig cexData
      [cexDraw]).2 w6rotRow (List.mem_singleton.mpr rfl)⟩

/-- Claim C7: both argmax selectors (over the 6 convention rows and over the
3 translation axes) pick the first occurrence of the maximum absolute value:
the selected index attains the maximum and every strictly smaller index has a
strictly smaller absolute value — so exact ties resolve to the lowest index.
Both selectors are functions of their inputs, hence deterministic. -/
theorem argmax_tie_break_lowest (e : Fin 6 → Fin 3 → ℚ) (v : Vec3) :
    ((∀ k : Fin 6, k < maxIndRot e → |e k 0| < |e (maxIndRot e) 0|) ∧
     (∀ k : Fin 6, |e k 0| ≤ |e (maxIndRot e) 0|)) ∧
    ((∀ a : Fin 3, a < maxIndTran v → |v a| < |v (maxIndTran v)|) ∧
     (∀ a : Fin 3, |v a| ≤ |v (maxIndTran v)|)) :=
  ⟨⟨fun k hk => abs_lt_maxIndRot e k hk, fun k => abs_le_maxIndRot e k⟩,
   ⟨fun a ha => abs_lt_maxIndTran v a ha, fun a => abs_le_maxIndTran v a⟩⟩

theorem argmax_tie_break_lowest_witness :
    |tieE 0 0| < |tieE (maxIndRot tieE) 0| ∧
    |tieV 0| < |tieV (maxIndTran tieV)| := by
  have h0 : (0 : Fin 6) < maxIndRot tieE := by
    rw [Fin.lt_def, maxIndRot_tieE]
    norm_num
  have h1 : (0 : Fin 3) < maxIndTran tieV := by
    rw [Fin.lt_def, maxIndTran_tieV]
    norm_num
  exact ⟨(argmax_tie_break_lowest tieE tieV).1.1 0 h0,
         (argmax_tie_break_lowest tieE tieV).2.1 0 h1⟩

/-- Claim C8 is refuted at this input: `badConfig` is malformed in all three
spec senses (even box size, `trans_frac = 3/2` outside `(0,1)`, negative
Euler bounds), yet no failure occurs: the pipeline runs and produces the
sampled-translation difference `(-1/2, -1/2, -1/2)`, i.e. sampling proceeds
with no `ConfigurationError` — the code contains no configuration
validation at all. -/
theorem no_config_validation_cex :
    malformedConfig badConfig ∧
    (get_train_pairs zeroQfe zeroEfm unitExtract () shape64 badConfig cexData
      [cexDraw]).2.trans_diff = [fun _ => -(1 / 2)] := by
  constructor
  · simp [malformedConfig, badConfig]
  · simp only [get_train_pairs, List.map]
    congr 1
    funext a
    show mat_diff_of _ _ a.castSucc 3 = -(1 / 2)
    fin_cases a <;>
      simp +decide [samplePipeline, mat_diff_of, matMul, inv_mat, poseMatrix,
        setTrans, quaternion_matrix, mk4, zeroQfe, cexData, cexDraw, shape64,
        badConfig, qId, sampleTran, Fin.sum_univ_four] <;> norm_num

/-- Claim C8 (amended): the code performs no configuration validation: for
every configuration — malformed ones included — `get_train_pairs` completes
and returns one slice, one label row of each kind and one regression vector
of each kind per draw; no `ConfigurationError` exists in the code. -/
theorem sampling_proceeds_for_all_configs {Img SliceT : Type}
    (qfe : Vec3 → Quat) (efm : Mat4 → EulerConv → Fin 3 → ℚ)
    (extract : Img → Mat4 → SliceT) (defaultImg : Img) (shapeOf : Img → Vec3)
    (cfg : Config) (data : TrainData Img) (draws : List SampleDraw) :
    (get_train_pairs qfe efm extract defaultImg shapeOf cfg data
        draws).2.slices.length = draws.length ∧
    (get_train_pairs qfe efm extract defaultImg shapeOf cfg data
        draws).2.actions_tran.length = draws.length ∧
    (get_train_pairs qfe efm extract defaultImg shapeOf cfg data
        draws).2.trans_diff.length = draws.length ∧
    (get_train_pairs qfe efm extract defaultImg shapeOf cfg data
        draws).2.actions_rot.length = draws.length ∧
    (get_train_pairs qfe efm extract defaultImg shapeOf cfg data
        draws).2.rots_diff.length = draws.length := by
  simp [get_train_pairs]

/-- Claim C9: `get_train_pairs` leaves the shared input store — the source
volumes `data.images`, the ground-truth translations `data.trans_vecs` and
the ground-truth quaternions `data.quats` — unchanged: the translation
threads the store through every statement of the source, which only ever
reads it, so the returned store is the input store itself. -/
theorem shared_inputs_unchanged {Img SliceT : Type} (qfe : Vec3 → Quat)
    (efm : Mat4 → EulerConv → Fin 3 → ℚ) (extract : Img → Mat4 → SliceT)
    (defaultImg : Img) (shapeOf : Img → Vec3) (cfg : Config)
    (data : TrainData Img) (draws : List SampleDraw) :
    (get_train_pairs qfe efm extract defaultImg shapeOf cfg data draws).1
      = data := rfl

/-- Claim C10: both labelers use the strict test `value > 0`, so when the
selected maximum-absolute component is exactly 0 the emitted hot index is the
odd (negative-direction) slot `2 * axis + 1`, never the even slot. -/
theorem zero_maps_to_negative_slot (e : Fin 6 → Fin 3 → ℚ) (v : Vec3) :
    (e (maxIndRot e) 0 = 0 →
      actionsIndRot e = 2 * rotAxisOf (maxIndRot e).val + 1) ∧
    (v (maxIndTran v) = 0 →
      actionsIndTran v = 2 * (maxIndTran v).val + 1) := by
  constructor
  · intro h
    unfold actionsIndRot maxEulerSel
    rw [h]
    simp only [gt_iff_lt, lt_self_iff_false, if_false]
    omega
  · intro h
    unfold actionsIndTran maxTransDiff
    rw [h]
    simp only [gt_iff_lt, lt_self_iff_false, if_false]
    omega

theorem zero_maps_to_negative_slot_witness :
    actionsIndRot (fun _ _ => (0 : ℚ))
        = 2 * rotAxisOf (maxIndRot (fun _ _ => (0 : ℚ))).val + 1 ∧
    actionsIndTran (fun _ => (0 : ℚ))
        = 2 * (maxIndTran (fun _ => (0 : ℚ))).val + 1 :=
  ⟨(zero_maps_to_negative_slot (fun _ _ => 0) (fun _ => 0)).1 rfl,
   (zero_maps_to_negative_slot (fun _ _ => 0) (fun _ => 0)).2 rfl⟩

end PlaneDetect
